import Mathlib

/-!
# DFS (Discord Forum Site) — verification of the server's page logic

Shallow embedding of `server.go` (the routing handlers `getPost` and
`getForum`, the gateway event handlers registered in `newServer`, and the
error-status helpers `discordStatusIs` / `guildFromReq` / `forumFromReq` /
`postFromReq`), together with spec-modelled definitions for the message
cache (`MessagesAfter` / `MessagesBefore`, `Set`, `Remove`), the backfill
controller, `ensureMembers` and the author/message display helpers, whose
source files are not part of the inspected tree.

Identifiers are `Nat` (Discord snowflakes); limits and lengths are `Nat`;
the forum page number, parsed by `strconv.Atoi`, is an `Int` before
normalisation.

The file is organised as: data model and operations first, then the
theorems about them.
-/

namespace DFS

/-- A Discord message as the cache stores it: time-ordered snowflake `id`,
the channel it belongs to, the guild id stamped on it by `getPost`
(server.go:387), its author's user id, content and the display-only
`edited` marker (`messageCache.Set`'s second argument). -/
structure Message where
  id : Nat
  channelID : Nat
  guildID : Nat
  authorID : Nat
  content : String
  edited : Bool
  deriving Repr, DecidableEq

/-- Modelled from the spec: the ChannelStore window read used by
`messageCache.MessagesAfter(postID, cur, 25)` — up to `limit` messages
strictly after the cursor, in ascending identifier order, plus the
`hasbefore` / `hasafter` flags "computed from whether entries exist
immediately outside the returned slice in each direction". The store `l`
is the channel's ordered sequence of cached messages. -/
def MessagesAfter (l : List Message) (cur : Nat) (limit : Nat) :
    List Message × Bool × Bool :=
  let afterMsgs := l.filter (fun m => cur < m.id)
  (afterMsgs.take limit, l.any (fun m => m.id ≤ cur),
    decide (limit < afterMsgs.length))

/-- Modelled from the spec: `messageCache.MessagesBefore(postID, cur, 25)` —
up to `limit` messages strictly before the cursor, "descending-then-reversed
when paging before", i.e. the `limit` entries closest to the cursor,
returned in ascending order, with `hasbefore` / `hasafter` as above. -/
def MessagesBefore (l : List Message) (cur : Nat) (limit : Nat) :
    List Message × Bool × Bool :=
  let beforeMsgs := l.filter (fun m => m.id < cur)
  (beforeMsgs.drop (beforeMsgs.length - limit),
    decide (limit < beforeMsgs.length),
    l.any (fun m => cur ≤ m.id))

/-- The cursor selection of `getPost` (server.go:338-355): an `after` query
parameter pages ascending from that cursor; otherwise a `before` parameter
pages descending from it; with neither, the request pages ascending from
the zero cursor.  Parameters stand for already-parsed snowflakes. -/
def getPostCursor (afterP beforeP : Option Nat) : Bool × Nat :=
  match afterP with
  | some a => (true, a)
  | none =>
    match beforeP with
    | some b => (false, b)
    | none => (true, 0)

/-- The message-paging step of `getPost` (server.go:356-363): dispatch to
`MessagesAfter` or `MessagesBefore` on the channel's cached store with
limit 25. -/
def getPostPage (store : List Message) (afterP beforeP : Option Nat) :
    List Message × Bool × Bool :=
  let (asc, cur) := getPostCursor afterP beforeP
  if asc then MessagesAfter store cur 25 else MessagesBefore store cur 25

/-- The channel store invariant: messages sorted strictly ascending by
identifier (spec §3, ChannelEntry: "ordered sequence of Messages keyed by
identifier (ascending, unique)"). -/
def StoreSorted (l : List Message) : Prop :=
  l.Pairwise (fun a b => a.id < b.id)

/-- Outcome of the `ctx.Next` / `ctx.Prev` assignments in `getPost`
(server.go:364-369): the field keeps its zero value (`unset`), is
assigned a message id (`set`), or the slice index is out of range
(`panicked`, a Go runtime panic). -/
inductive CursorResult where
  | unset
  | set (id : Nat)
  | panicked
  deriving Repr, DecidableEq

/-- `ctx.Next` computation (server.go:364-366): the read of
`msgs[len(msgs)-1]` happens only when `hasafter` holds and the slice is
non-empty. -/
def getPostNext (msgs : List Message) (hasafter : Bool) : CursorResult :=
  if hasafter && decide (0 < msgs.length) then
    match msgs.get? (msgs.length - 1) with
    | some m => .set m.id
    | none => .panicked
  else .unset

/-- `ctx.Prev` computation (server.go:367-369): the read of `msgs[0]`
is guarded only by `hasbefore`. -/
def getPostPrev (msgs : List Message) (hasbefore : Bool) : CursorResult :=
  if hasbefore then
    match msgs.get? 0 with
    | some m => .set m.id
    | none => .panicked
  else .unset

/-! ## Backfill state machine -/

/-- The per-channel backfill state (spec §3, BackfillState).  `Inactive`
channels are recorded in the server's `fetchedInactive` set
(server.go:31-32). -/
inductive BackfillState where
  | Unknown
  | Backfilling
  | Complete
  | Inactive
  deriving Repr, DecidableEq

/-- Outcome of a REST history fetch, as the controller observes it:
whether the call succeeded and whether the platform reports the channel
archived/closed. -/
structure FetchOutcome where
  ok : Bool
  archived : Bool
  deriving Repr, DecidableEq

/-- Modelled from the spec: the BackfillController decision taken by one
`page` call (spec §4.3); the cache/backfill source file is not in the
inspected tree.  `covered` says whether the cached data already covers
the requested window; `f` is the oracle for the REST fetch this call
would issue.  Returns the next state and the number of REST history
fetches issued: `Inactive` never fetches; `Unknown` fetches once and is
classified `Inactive` or `Complete` on success, reverting to `Unknown`
on failure; `Complete` fetches only for an uncovered boundary and stays
`Complete`; a concurrent `Backfilling` observer coalesces (no fetch of
its own). -/
def backfillPage (st : BackfillState) (covered : Bool) (f : FetchOutcome) :
    BackfillState × Nat :=
  match st with
  | .Inactive => (.Inactive, 0)
  | .Unknown =>
    if f.ok then
      (if f.archived then .Inactive else .Complete, 1)
    else (.Unknown, 1)
  | .Complete => if covered then (.Complete, 0) else (.Complete, 1)
  | .Backfilling => (.Backfilling, 0)

/-- A sequence of `page` calls for one channel: fold `backfillPage` over
the requests, accumulating the REST fetch count.  Each request carries
its coverage flag and fetch oracle (the cursor itself is irrelevant to
the state machine). -/
def runBackfill (st : BackfillState) (reqs : List (Bool × FetchOutcome)) :
    BackfillState × Nat :=
  reqs.foldl (fun acc r =>
    let step := backfillPage acc.1 r.1 r.2
    (step.1, acc.2 + step.2)) (st, 0)

/-! ## Gateway event handlers -/

/-- The three gateway events the server subscribes to
(server.go:62-70). -/
inductive GatewayEvent where
  | messageCreate (m : Message)
  | messageUpdate (m : Message)
  | messageDelete (channelID : Nat) (id : Nat)
  deriving Repr, DecidableEq

/-- A mutation of the message cache: `messageCache.Set(msg, edited)` or
`messageCache.Remove(channelID, messageID)`. -/
inductive CacheOp where
  | set (m : Message) (edited : Bool)
  | remove (channelID : Nat) (id : Nat)
  deriving Repr, DecidableEq

/-- The handlers registered in `newServer` (server.go:62-70), as the list
of cache mutations one event triggers: create calls `Set(m.Message,
false)`, update calls `Set(m.Message, true)`, delete calls
`Remove(m.ChannelID, m.ID)`. -/
def handleGatewayEvent : GatewayEvent → List CacheOp
  | .messageCreate m => [.set m false]
  | .messageUpdate m => [.set m true]
  | .messageDelete ch id => [.remove ch id]

/-- Modelled from the spec: ChannelStore upsert (`messageCache.Set`) —
insert by identifier preserving ascending order, replacing an existing
entry with the same identifier (the cache source file is not in the
inspected tree). -/
def cacheSet (l : List Message) (m : Message) (edited : Bool) :
    List Message :=
  match l with
  | [] => [{ m with edited := edited }]
  | x :: xs =>
    if m.id < x.id then { m with edited := edited } :: x :: xs
    else if m.id = x.id then { m with edited := edited } :: xs
    else x :: cacheSet xs m edited

/-- Modelled from the spec: `messageCache.Remove` — drop the message with
the given identifier from the given channel without disturbing its
neighbours. -/
def cacheRemove (l : List Message) (channelID id : Nat) : List Message :=
  l.filter (fun m => ¬(m.channelID = channelID ∧ m.id = id))

/-- Apply one cache mutation to a channel store. -/
def applyOp (l : List Message) : CacheOp → List Message
  | .set m edited => cacheSet l m edited
  | .remove ch id => cacheRemove l ch id

/-- The effect of one gateway event on a channel store: fold the
handler's mutations over it. -/
def applyEvent (l : List Message) (e : GatewayEvent) : List Message :=
  (handleGatewayEvent e).foldl applyOp l

/-! ## Member resolution -/

/-- Modelled from the spec: `ensureMembers(ctx, post, msgs)` (spec §4.5);
its source file is not in the inspected tree.  State is the server's
`membersGot` set of channel ids (server.go:34-35).  If the channel is
already marked resolved, no member fetch is issued; otherwise one
batched member fetch is issued (outcome given by the oracle `fetchOK`,
covering REST errors and deadline expiry), and on success the channel is
added to `membersGot`.  Returns the new set, the number of member-fetch
calls issued, and whether the call succeeded. -/
def ensureMembers (got : List Nat) (ch : Nat) (fetchOK : Bool) :
    List Nat × Nat × Bool :=
  if ch ∈ got then (got, 0, true)
  else if fetchOK then (ch :: got, 1, true)
  else (got, 1, false)

/-! ## Error taxonomy and the lookup handlers -/

/-- An upstream error as the arikawa client surfaces it: either an
`httputil.HTTPError` carrying an HTTP status (reachable through
`errors.As`), or any other error. -/
inductive DiscordError where
  | http (status : Nat)
  | other (msg : String)
  deriving Repr, DecidableEq

/-- `discordStatusIs` (server.go:130-136): `errors.As` succeeds exactly
for HTTP errors, and then the carried status is compared. -/
def discordStatusIs : DiscordError → Nat → Bool
  | .http s, status => s == status
  | .other _, _ => false

/-- A guild, as far as the handlers inspect it. -/
structure Guild where
  id : Nat
  deriving Repr, DecidableEq

/-- The channel types `getForum` / `getGuild` distinguish. -/
inductive ChannelType where
  | guildForum
  | guildPublicThread
  | otherType
  deriving Repr, DecidableEq

/-- A forum tag (`discord.Tag`), as far as `getForum` inspects it. -/
structure Tag where
  id : Nat
  name : String
  deriving Repr, DecidableEq

/-- A channel, as far as the handlers inspect it: identity, parent,
type, flags, snowflake of the last message, applied/available tags and
the NSFW marker. -/
structure Channel where
  id : Nat
  parentID : Nat
  typ : ChannelType
  flags : Nat
  lastMessageID : Nat
  appliedTags : List Nat
  availableTags : List Tag
  nsfw : Bool
  deriving Repr, DecidableEq

/-- What a `…FromReq` helper produces: the looked-up value, or an error
page with an HTTP status written by `displayErr`. -/
inductive LookupResponse (α : Type) where
  | ok (a : α)
  | errorPage (status : Nat)
  deriving Repr, DecidableEq

/-- `guildFromReq` (server.go:401-419), from the point where the guild
lookup has returned: a 404 from upstream renders a 404 page, any other
lookup error renders a 500 page. -/
def guildFromReq (res : Except DiscordError Guild) : LookupResponse Guild :=
  match res with
  | .ok g => .ok g
  | .error e =>
    if discordStatusIs e 404 then .errorPage 404 else .errorPage 500

/-- `forumFromReq` (server.go:421-444): same error mapping as
`guildFromReq`, and a successfully fetched NSFW forum renders a 403. -/
def forumFromReq (res : Except DiscordError Channel) :
    LookupResponse Channel :=
  match res with
  | .ok c => if c.nsfw then .errorPage 403 else .ok c
  | .error e =>
    if discordStatusIs e 404 then .errorPage 404 else .errorPage 500

/-- `postFromReq` (server.go:446-464): same error mapping as
`guildFromReq`. -/
def postFromReq (res : Except DiscordError Channel) :
    LookupResponse Channel :=
  match res with
  | .ok c => .ok c
  | .error e =>
    if discordStatusIs e 404 then .errorPage 404 else .errorPage 500

/-! ## Author groups -/

/-- A display author, as far as the grouping logic inspects it: the user
id and resolved display data. -/
structure Author where
  id : Nat
  name : String
  deriving Repr, DecidableEq

/-- Modelled from the spec: `s.author(m)` — author display lookup by the
message author's user id ("author display lookup by user ID", spec §6);
`resolved` is the member-record table, unresolved authors fall back to a
minimal/unknown identity.  Its source file is not in the inspected
tree. -/
def author (resolved : Nat → Option String) (m : Message) : Author :=
  ⟨m.authorID, (resolved m.authorID).getD "unknown"⟩

/-- A `MessageGroup` (server.go:384-397): a display author together with
the run of messages attributed to it.  The rendering conversion
`s.message(m)` is display-only and not in the inspected tree; groups
keep the messages themselves. -/
structure MessageGroup where
  author : Author
  messages : List Message
  deriving Repr, DecidableEq

/-- One iteration of the grouping loop in `getPost` (server.go:386-396):
with `i == -1` (no group yet) or a different author than the last
group's, start a new group; otherwise append to the last group
(`msgrps[i]`). -/
def appendToGroups (resolved : Nat → Option String)
    (grps : List MessageGroup) (m : Message) : List MessageGroup :=
  match grps.getLast? with
  | none => grps ++ [⟨author resolved m, [m]⟩]
  | some g =>
    if g.author.id ≠ m.authorID then
      grps ++ [⟨author resolved m, [m]⟩]
    else
      grps.dropLast ++ [⟨g.author, g.messages ++ [m]⟩]

/-- The grouping loop of `getPost` (server.go:384-397), folded over the
page's messages. -/
def buildGroups (resolved : Nat → Option String) (msgs : List Message) :
    List MessageGroup :=
  msgs.foldl (appendToGroups resolved) []

/-- Concatenation of the groups' message lists, in order. -/
def concatGroups (grps : List MessageGroup) : List Message :=
  (grps.map (·.messages)).flatten

/-- Well-formed author groups: every group is a non-empty run of
messages carrying the group's author id, and adjacent groups have
different author ids. -/
def GroupsWF (grps : List MessageGroup) : Prop :=
  (∀ g ∈ grps, g.messages ≠ [] ∧ ∀ m ∈ g.messages, m.authorID = g.author.id)
    ∧ grps.Chain' (fun a b => a.author.id ≠ b.author.id)

/-! ## The tail of getPost -/

/-- What `getPost` sends back after the paging step: an error page
written by `displayErr`, or the rendered post page with its message
groups. -/
inductive PostResponse where
  | errorPage (status : Nat)
  | rendered (groups : List MessageGroup)
  deriving Repr, DecidableEq

/-- Whether a response is the rendered post page. -/
def PostResponse.isRendered : PostResponse → Bool
  | .rendered _ => true
  | .errorPage _ => false

/-- The tail of `getPost` (server.go:375-398), from the `ensureMembers`
call on: if `ensureMembers` returns an error (REST failure or the
5-second deadline), `displayErr` writes a 500 page and the handler
returns; otherwise every message is stamped with the guild id and the
author groups are built and rendered. -/
def getPostFinish (guildID : Nat) (msgs : List Message)
    (resolved : Nat → Option String) (ensureErr : Bool) : PostResponse :=
  if ensureErr then .errorPage 500
  else .rendered
    (buildGroups resolved (msgs.map (fun m => { m with guildID := guildID })))

/-! ## getForum -/

/-- A forum post as `getForum` collects it (server.go:236-239): the
thread channel plus its resolved tags. -/
structure Post where
  channel : Channel
  tags : List Tag
  deriving Repr, DecidableEq

/-- The tag-resolution double loop of `getForum` (server.go:278-284):
for each applied tag id, every available tag of the forum with that id
is appended. -/
def mkPost (forum : Channel) (thread : Channel) : Post :=
  ⟨thread,
    (thread.appliedTags.map
      (fun tag => forum.availableTags.filter (fun avail => avail.id = tag))).flatten⟩

/-- The post-collection loop of `getForum` (server.go:271-286): threads
whose parent is the forum and whose type is public thread, in channel
order, each with its tags resolved. -/
def collectPosts (channels : List Channel) (forum : Channel) : List Post :=
  channels.foldl (fun acc t =>
    if t.parentID = forum.id ∧ t.typ = ChannelType.guildPublicThread then
      acc ++ [mkPost forum t]
    else acc) []

/-- `discord.PinnedThread` (arikawa `ChannelFlags`, bit 1). -/
def pinnedThread : Nat := 2

/-- The comparator passed to `sort.SliceStable` in `getForum`
(server.go:287-292).  Go operator precedence makes the first condition
`Flags[i] ^ (Flags[j] & PinnedThread) != 0`; the second key is last
activity, later first (`LastMessageID.Time().After`). -/
def forumLess (a b : Post) : Bool :=
  if a.channel.flags ^^^ (b.channel.flags &&& pinnedThread) ≠ 0 then
    a.channel.flags &&& pinnedThread ≠ 0
  else
    decide (b.channel.lastMessageID < a.channel.lastMessageID)

/-- `math.MaxInt64`, the largest value `strconv.Atoi` accepts on a
64-bit platform; the `{page:\d+}` route plus `Atoi` lets any page
number up to this through. -/
def maxInt64 : Int := 2 ^ 63 - 1

/-- Go `int` (int64) two's-complement wrap-around: the representative
of `x` in `[-2^63, 2^63)`. -/
def wrap64 (x : Int) : Int := (x + 2 ^ 63) % 2 ^ 64 - 2 ^ 63

/-- Page-parameter normalisation of `getForum` (server.go:293-296): a
missing or non-numeric `page` URL parameter (`strconv.Atoi` error —
including digit strings above `MaxInt64` — modelled as `none`) or a
value below 1 is treated as page 1. -/
def normPage (o : Option Int) : Int :=
  match o with
  | none => 1
  | some p => if p < 1 then 1 else p

/-- The rendering context of `getForum` as far as the claims inspect
it: the posts slice and the `Prev` / `Next` page numbers (Go `int`;
zero = unset, the Go zero value). -/
structure ForumCtx where
  posts : List Post
  prev : Int
  next : Int
  deriving Repr, DecidableEq

/-- A Go slice expression `posts[low:high]`: it panics — modelled as
`none` — unless `0 ≤ low ≤ high ≤ len(posts)`. -/
def goSlice (posts : List Post) (low high : Int) : Option (List Post) :=
  if 0 ≤ low ∧ low ≤ high ∧ high ≤ (posts.length : Int) then
    some ((posts.drop low.toNat).take (high - low).toNat)
  else none

/-- The pagination step of `getForum` (server.go:297-308) on the
collected posts, for an already-normalised page number, with Go `int`
(int64) arithmetic: `page*25` and `(page-1)*25` wrap at `2^63`, so for
page values above `MaxInt64/25` the `len(posts) > page*25` comparison
sees a wrapped negative number and the slice expressions get negative
bounds — a runtime panic, modelled as `none`.  Returns the page's
slice (or the panic) and the `Prev` / `Next` values. -/
def forumPaginate (posts : List Post) (page : Int) :
    Option (List Post) × Int × Int :=
  let prev := if 1 < page then page - 1 else 0
  let p25 := wrap64 (page * 25)
  let pm25 := wrap64 ((page - 1) * 25)
  if (posts.length : Int) > p25 then
    (goSlice posts pm25 p25, prev, wrap64 (page + 1))
  else if pm25 ≤ (posts.length : Int) then
    (goSlice posts pm25 (posts.length : Int), prev, 0)
  else (some [], prev, 0)

/-- `getForum` (server.go:245-309) after guild and forum resolution:
collect the forum's posts from the guild's channel list, run
`sort.SliceStable` on `ctx.Posts` — which still holds its zero value
`[]`, the collected posts not having been assigned to it — then
paginate the collected posts and assign them to `ctx.Posts`.  A
panicking slice expression aborts the handler (`none`). -/
def getForumHandler (channels : List Channel) (forum : Channel)
    (pageParam : Option Int) : Option ForumCtx :=
  let posts := collectPosts channels forum
  let ctx : ForumCtx := { posts := [], prev := 0, next := 0 }
  let ctx := { ctx with posts := ctx.posts.mergeSort forumLess }
  let page := normPage pageParam
  let r := forumPaginate posts page
  match r.1 with
  | some sliced =>
    some { ctx with posts := sliced, prev := r.2.1, next := r.2.2 }
  | none => none

/-!
# Theorems
-/

theorem storeSorted_sublist {l₁ l₂ : List Message} (h : l₁.Sublist l₂)
    (hs : StoreSorted l₂) : StoreSorted l₁ :=
  List.Pairwise.sublist h hs

theorem messagesAfter_sorted (l : List Message) (cur limit : Nat)
    (hs : StoreSorted l) : StoreSorted (MessagesAfter l cur limit).1 :=
  storeSorted_sublist
    ((List.take_sublist _ _).trans (List.filter_sublist l)) hs

theorem messagesBefore_sorted (l : List Message) (cur limit : Nat)
    (hs : StoreSorted l) : StoreSorted (MessagesBefore l cur limit).1 :=
  storeSorted_sublist
    ((List.drop_sublist _ _).trans (List.filter_sublist l)) hs

/-- C1 -- For every page request handled by `getPost`, the messages handed
to the rendering layer are in chronological ascending order by message
identifier, whether the request paged with an `after` cursor, a `before`
cursor, or no cursor at all. -/
theorem getPost_messages_ascending (store : List Message)
    (afterP beforeP : Option Nat) (hs : StoreSorted store) :
    StoreSorted (getPostPage store afterP beforeP).1 := by
  unfold getPostPage getPostCursor
  cases afterP with
  | some a => exact messagesAfter_sorted store a 25 hs
  | none =>
    cases beforeP with
    | some b => exact messagesBefore_sorted store b 25 hs
    | none => exact messagesAfter_sorted store 0 25 hs

/-- Witness for C1: a concrete sorted store paged with a `before` cursor
yields a sorted page. -/
theorem getPost_messages_ascending_witness :
    StoreSorted (getPostPage
      [⟨10, 1, 1, 7, "a", false⟩, ⟨20, 1, 1, 8, "b", false⟩]
      none (some 20)).1 :=
  getPost_messages_ascending _ none (some 20) (by
    constructor
    · intro b hb
      simp only [List.mem_singleton] at hb
      subst hb
      decide
    · exact List.pairwise_singleton _ _)

theorem runBackfill_inactive_aux (reqs : List (Bool × FetchOutcome))
    (n : Nat) :
    reqs.foldl (fun acc r =>
      let step := backfillPage acc.1 r.1 r.2
      (step.1, acc.2 + step.2)) (BackfillState.Inactive, n) =
      (BackfillState.Inactive, n) := by
  induction reqs with
  | nil => rfl
  | cons r rs ih => simpa [backfillPage] using ih

/-- C2 -- Once a channel's backfill state is `Inactive` (it is in the
`fetchedInactive` set), no sequence of subsequent `page` calls ever
issues a REST history fetch, for any cursor/coverage and any fetch
oracle: the state stays `Inactive` and the fetch count stays zero. -/
theorem inactive_never_fetches (reqs : List (Bool × FetchOutcome)) :
    runBackfill BackfillState.Inactive reqs = (BackfillState.Inactive, 0) :=
  runBackfill_inactive_aux reqs 0

/-- C4 -- The three handlers registered at server construction map events
to cache operations exactly as claimed: create upserts with the edited
marker false, update upserts with the edited marker true, delete removes
by channel and message id; and no handler performs any other cache
mutation (each event triggers exactly one operation, so its whole effect
on any store is that single operation). -/
theorem gateway_handlers_map (m : Message) (ch id : Nat)
    (e : GatewayEvent) (l : List Message) :
    handleGatewayEvent (.messageCreate m) = [.set m false] ∧
    handleGatewayEvent (.messageUpdate m) = [.set m true] ∧
    handleGatewayEvent (.messageDelete ch id) = [.remove ch id] ∧
    ∃ op, handleGatewayEvent e = [op] ∧ applyEvent l e = applyOp l op := by
  refine ⟨rfl, rfl, rfl, ?_⟩
  cases e <;> exact ⟨_, rfl, rfl⟩

/-- C6 -- Calling `ensureMembers` twice in a row for the same channel
(and hence the same message set) issues at most one member-fetch call:
once the first call succeeds and records the channel in `membersGot`,
the second call performs no fetch, whatever its own oracle says. -/
theorem ensureMembers_idempotent (got : List Nat) (ch : Nat)
    (ok1 ok2 : Bool) (h : (ensureMembers got ch ok1).2.2 = true) :
    (ensureMembers (ensureMembers got ch ok1).1 ch ok2).2.1 = 0 ∧
    (ensureMembers got ch ok1).2.1 +
      (ensureMembers (ensureMembers got ch ok1).1 ch ok2).2.1 ≤ 1 := by
  by_cases hm : ch ∈ got
  · simp [ensureMembers, hm]
  · cases ok1 with
    | false => simp [ensureMembers, hm] at h
    | true => simp [ensureMembers, hm]

/-- Witness for C6: from an empty `membersGot`, a successful resolve of
channel 5 followed by a second call issues one fetch in total. -/
theorem ensureMembers_idempotent_witness :
    (ensureMembers (ensureMembers [] 5 true).1 5 false).2.1 = 0 ∧
    (ensureMembers [] 5 true).2.1 +
      (ensureMembers (ensureMembers [] 5 true).1 5 false).2.1 ≤ 1 :=
  ensureMembers_idempotent [] 5 true false (by decide)

/-- C7 -- For every request in which the guild, forum, or post lookup
fails, the handler responds 404 if and only if the upstream error is an
HTTP error with status 404, and 500 for every other lookup error. -/
theorem lookup_error_status (e : DiscordError) :
    (guildFromReq (.error e) = .errorPage 404 ↔ e = .http 404) ∧
    (forumFromReq (.error e) = .errorPage 404 ↔ e = .http 404) ∧
    (postFromReq (.error e) = .errorPage 404 ↔ e = .http 404) ∧
    (e ≠ .http 404 →
      guildFromReq (.error e) = .errorPage 500 ∧
      forumFromReq (.error e) = .errorPage 500 ∧
      postFromReq (.error e) = .errorPage 500) := by
  cases e with
  | http s =>
    by_cases h : s = 404
    · subst h
      simp [guildFromReq, forumFromReq, postFromReq, discordStatusIs]
    · have hne : (DiscordError.http s) ≠ .http 404 := by
        intro hc
        exact h (by injection hc)
      simp [guildFromReq, forumFromReq, postFromReq, discordStatusIs, h, hne]
  | other msg =>
    simp [guildFromReq, forumFromReq, postFromReq, discordStatusIs]

/-- Witness for C7: a non-HTTP upstream error during a post lookup
renders a 500 page, and an upstream 404 renders a 404 page. -/
theorem lookup_error_status_witness :
    postFromReq (.error (.other "network down")) = .errorPage 500 ∧
    guildFromReq (.error (.http 404)) = .errorPage 404 :=
  ⟨((lookup_error_status (.other "network down")).2.2.2 (by simp)).2.2,
    (lookup_error_status (.http 404)).1.mpr rfl⟩

/-- C5 counterexample -- with a concrete one-message page and a failing
`ensureMembers`, `getPost` responds with a 500 error page: the page is
not rendered (no fallback rendering with minimal author identities
occurs). -/
theorem ensureMembers_failure_blocks_render :
    getPostFinish 1 [⟨10, 1, 1, 7, "a", false⟩] (fun _ => none) true
        = .errorPage 500 ∧
    (getPostFinish 1 [⟨10, 1, 1, 7, "a", false⟩]
        (fun _ => none) true).isRendered = false :=
  ⟨rfl, rfl⟩

/-- C5 (amended) -- when `ensureMembers` fails during a `getPost`
request, the failure is surfaced to the caller as a 500 error page and
the handler aborts before building message groups: the page is not
rendered; only a successful `ensureMembers` leads to the rendered page
(where authors missing from the member table fall back to the minimal
"unknown" identity inside `author`). -/
theorem ensureMembers_failure_surfaced (guildID : Nat)
    (msgs : List Message) (resolved : Nat → Option String) :
    getPostFinish guildID msgs resolved true = .errorPage 500 ∧
    (getPostFinish guildID msgs resolved true).isRendered = false ∧
    getPostFinish guildID msgs resolved false =
      .rendered (buildGroups resolved
        (msgs.map (fun m => { m with guildID := guildID }))) :=
  ⟨rfl, rfl, rfl⟩

/-- C8 counterexample -- paging `after` the newest cached message of a
two-message channel, the cache returns an empty slice together with
`hasbefore = true`, and the unguarded `msgs[0]` read computing
`ctx.Prev` is out of range. -/
theorem prev_read_out_of_bounds :
    (getPostPage [⟨10, 1, 1, 7, "a", false⟩, ⟨20, 1, 1, 8, "b", false⟩]
        (some 20) none).1 = [] ∧
    (getPostPage [⟨10, 1, 1, 7, "a", false⟩, ⟨20, 1, 1, 8, "b", false⟩]
        (some 20) none).2.1 = true ∧
    getPostPrev
      (getPostPage [⟨10, 1, 1, 7, "a", false⟩, ⟨20, 1, 1, 8, "b", false⟩]
        (some 20) none).1
      (getPostPage [⟨10, 1, 1, 7, "a", false⟩, ⟨20, 1, 1, 8, "b", false⟩]
        (some 20) none).2.1 = .panicked := by
  decide

/-- C8 (amended) -- the `msgs[len(msgs)-1]` read for `Next` is guarded
by an explicit non-emptiness check and never out of range; the
`msgs[0]` read for `Prev` is in bounds exactly under the invariant that
`hasbefore = true` comes with a non-empty slice — an invariant the
cache modelled from the spec does not provide when paging after the
newest cached message. -/
theorem getPost_cursor_reads_safe (msgs : List Message)
    (hasbefore hasafter : Bool) (hinv : hasbefore = true → msgs ≠ []) :
    getPostPrev msgs hasbefore ≠ .panicked ∧
    getPostNext msgs hasafter ≠ .panicked := by
  constructor
  · unfold getPostPrev
    cases hb : hasbefore with
    | false => simp
    | true =>
      have hlen : 0 < msgs.length := List.length_pos.mpr (hinv hb)
      cases hg : msgs.get? 0 with
      | some m => simp [hg]
      | none =>
        have := List.get?_eq_none.mp hg
        omega
  · unfold getPostNext
    by_cases hc : (hasafter && decide (0 < msgs.length)) = true
    · have hlen : 0 < msgs.length := by
        have := (Bool.and_eq_true _ _).mp hc
        exact of_decide_eq_true this.2
      cases hg : msgs.get? (msgs.length - 1) with
      | some m => simp [hc, hg]
      | none =>
        have := List.get?_eq_none.mp hg
        omega
    · simp [hc]

/-- Witness for the amended C8: on a one-message slice with both flags
set, neither cursor read panics. -/
theorem getPost_cursor_reads_safe_witness :
    getPostPrev [⟨10, 1, 1, 7, "a", false⟩] true ≠ .panicked ∧
    getPostNext [⟨10, 1, 1, 7, "a", false⟩] true ≠ .panicked :=
  getPost_cursor_reads_safe _ true true (fun _ => by simp)

theorem one_le_normPage (o : Option Int) : 1 ≤ normPage o := by
  cases o with
  | none => exact le_refl 1
  | some p =>
    simp only [normPage]
    split
    · exact le_refl 1
    · omega

theorem wrap64_eq_self {x : Int} (h1 : -9223372036854775808 ≤ x)
    (h2 : x < 9223372036854775808) : wrap64 x = x := by
  have e63 : (2 : Int) ^ 63 = 9223372036854775808 := by norm_num
  have e64 : (2 : Int) ^ 64 = 18446744073709551616 := by norm_num
  unfold wrap64
  rw [e63, e64, Int.emod_eq_of_lt (by omega) (by omega)]
  omega

theorem forumPaginate_no_overflow (posts : List Post) (p : Int)
    (h1 : 1 ≤ p) (h2 : p * 25 ≤ maxInt64) :
    forumPaginate posts p =
      if (posts.length : Int) > p * 25 then
        (some ((posts.drop ((p - 1) * 25).toNat).take 25),
          if 1 < p then p - 1 else 0, p + 1)
      else if (p - 1) * 25 ≤ (posts.length : Int) then
        (some (posts.drop ((p - 1) * 25).toNat),
          if 1 < p then p - 1 else 0, 0)
      else (some [], if 1 < p then p - 1 else 0, 0) := by
  have hmax : maxInt64 = 9223372036854775807 := by norm_num [maxInt64]
  have hw1 : wrap64 (p * 25) = p * 25 :=
    wrap64_eq_self (by omega) (by omega)
  have hw2 : wrap64 ((p - 1) * 25) = (p - 1) * 25 :=
    wrap64_eq_self (by omega) (by omega)
  have hw3 : wrap64 (p + 1) = p + 1 :=
    wrap64_eq_self (by omega) (by omega)
  simp only [forumPaginate]
  rw [hw1, hw2, hw3]
  by_cases hc1 : (posts.length : Int) > p * 25
  · rw [if_pos hc1, if_pos hc1]
    have hgs : goSlice posts ((p - 1) * 25) (p * 25) =
        some ((posts.drop ((p - 1) * 25).toNat).take 25) := by
      unfold goSlice
      rw [if_pos ⟨by omega, by omega, by omega⟩]
      have h25 : p * 25 - (p - 1) * 25 = 25 := by ring
      rw [h25]
      rfl
    rw [hgs]
  · rw [if_neg hc1, if_neg hc1]
    by_cases hc2 : (p - 1) * 25 ≤ (posts.length : Int)
    · rw [if_pos hc2, if_pos hc2]
      have hgs : goSlice posts ((p - 1) * 25) (posts.length : Int) =
          some (posts.drop ((p - 1) * 25).toNat) := by
        unfold goSlice
        rw [if_pos ⟨by omega, hc2, le_refl _⟩]
        congr 1
        apply List.take_of_length_le
        simp only [List.length_drop]
        omega
      rw [hgs]
    · rw [if_neg hc2, if_neg hc2]

/-- C10 counterexample -- the page value 400000000000000000 passes the
`{page:\d+}` route and `strconv.Atoi` (it is below `MaxInt64`) and
survives normalisation, yet `page*25` wraps negative in Go's int64
arithmetic, so the `len(posts) > page*25` branch is taken and the
slice expression `posts[(page-1)*25 : page*25]` gets negative bounds —
an out-of-range panic (`none`), refuting "the slicing expressions
never index out of bounds". -/
theorem forum_pagination_overflow :
    (400000000000000000 : Int) ≤ maxInt64 ∧
    normPage (some 400000000000000000) = 400000000000000000 ∧
    (forumPaginate [] (normPage (some 400000000000000000))).1 = none := by
  refine ⟨by decide, by decide, ?_⟩
  decide

/-- C10 (amended) -- the forum pagination arithmetic of `getForum`,
for page numbers whose arithmetic does not overflow int64
(`p*25 ≤ MaxInt64`): a missing, non-numeric, or below-1 page parameter
means page 1; with `n` collected posts, the returned slice is
`posts[(p-1)*25 : p*25]` with `Next = p+1` when `n > p*25` (and that
slice is in bounds), `posts[(p-1)*25 : n]` with `Next` unset when
`(p-1)*25 ≤ n ≤ p*25`, and empty when `n < (p-1)*25`; `Prev` is `p-1`
exactly when `p > 1`; every returned slice has at most 25 elements.
For larger (still `Atoi`-accepted) page values the wrapped arithmetic
panics on negative slice bounds instead (see the counterexample). -/
theorem forum_pagination_spec (posts : List Post) (o : Option Int)
    (hnw : normPage o * 25 ≤ maxInt64) :
    normPage none = 1 ∧
    (∀ k : Int, k < 1 → normPage (some k) = 1) ∧
    1 ≤ normPage o ∧
    ((posts.length : Int) > normPage o * 25 →
      (forumPaginate posts (normPage o)).1 =
        some ((posts.drop ((normPage o - 1) * 25).toNat).take 25) ∧
      (forumPaginate posts (normPage o)).2.2 = normPage o + 1 ∧
      0 ≤ (normPage o - 1) * 25 ∧
      normPage o * 25 ≤ (posts.length : Int)) ∧
    ((normPage o - 1) * 25 ≤ (posts.length : Int) →
      (posts.length : Int) ≤ normPage o * 25 →
      (forumPaginate posts (normPage o)).1 =
        some (posts.drop ((normPage o - 1) * 25).toNat) ∧
      (forumPaginate posts (normPage o)).2.2 = 0) ∧
    ((posts.length : Int) < (normPage o - 1) * 25 →
      (forumPaginate posts (normPage o)).1 = some []) ∧
    ((forumPaginate posts (normPage o)).2.1 =
      if 1 < normPage o then normPage o - 1 else 0) ∧
    (∀ l, (forumPaginate posts (normPage o)).1 = some l →
      l.length ≤ 25) := by
  have hp : 1 ≤ normPage o := one_le_normPage o
  have heq := forumPaginate_no_overflow posts (normPage o) hp hnw
  rw [heq]
  refine ⟨rfl, ?_, hp, ?_, ?_, ?_, ?_, ?_⟩
  · intro k hk
    simp [normPage, hk]
  · intro h
    rw [if_pos h]
    exact ⟨rfl, rfl, by omega, by omega⟩
  · intro ha hb
    by_cases hc1 : (posts.length : Int) > normPage o * 25
    · omega
    · rw [if_neg hc1, if_pos ha]
      exact ⟨rfl, rfl⟩
  · intro h
    rw [if_neg (by omega), if_neg (by omega)]
  · by_cases hc1 : (posts.length : Int) > normPage o * 25
    · rw [if_pos hc1]
    · by_cases hc2 : (normPage o - 1) * 25 ≤ (posts.length : Int)
      · rw [if_neg hc1, if_pos hc2]
      · rw [if_neg hc1, if_neg hc2]
  · intro l hl
    by_cases hc1 : (posts.length : Int) > normPage o * 25
    · rw [if_pos hc1] at hl
      simp only [Option.some.injEq] at hl
      subst hl
      exact List.length_take_le _ _
    · by_cases hc2 : (normPage o - 1) * 25 ≤ (posts.length : Int)
      · rw [if_neg hc1, if_pos hc2] at hl
        simp only [Option.some.injEq] at hl
        subst hl
        simp only [List.length_drop]
        omega
      · rw [if_neg hc1, if_neg hc2] at hl
        simp only [Option.some.injEq] at hl
        subst hl
        simp

/-- Witness for the amended C10: one collected post and page parameter
2 (no overflow) give an empty slice, and a missing parameter means
page 1. -/
theorem forum_pagination_spec_witness :
    (forumPaginate
      [⟨⟨1, 2, ChannelType.guildPublicThread, 0, 5, [], [], false⟩, []⟩]
      (normPage (some 2))).1 = some [] ∧
    normPage none = 1 :=
  ⟨(forum_pagination_spec _ (some 2) (by decide)).2.2.2.2.2.1 (by decide),
    (forum_pagination_spec [] none (by decide)).1⟩

theorem collectPosts_eq (channels : List Channel) (forum : Channel) :
    collectPosts channels forum =
      (channels.filter (fun t =>
        decide (t.parentID = forum.id ∧
          t.typ = ChannelType.guildPublicThread))).map (mkPost forum) := by
  suffices h : ∀ acc : List Post,
      channels.foldl (fun acc t =>
        if t.parentID = forum.id ∧ t.typ = ChannelType.guildPublicThread then
          acc ++ [mkPost forum t]
        else acc) acc =
      acc ++ (channels.filter (fun t =>
        decide (t.parentID = forum.id ∧
          t.typ = ChannelType.guildPublicThread))).map (mkPost forum) by
    simpa [collectPosts] using h []
  induction channels with
  | nil => intro acc; simp
  | cons c cs ih =>
    intro acc
    by_cases hc : c.parentID = forum.id ∧ c.typ = ChannelType.guildPublicThread
    · rw [List.foldl_cons, if_pos hc, ih]
      simp [List.filter_cons, hc]
    · rw [List.foldl_cons, if_neg hc, ih]
      simp [List.filter_cons, hc]

theorem goSlice_sublist (posts : List Post) (low high : Int)
    (l : List Post) (h : goSlice posts low high = some l) :
    l.Sublist posts := by
  unfold goSlice at h
  split at h
  · simp only [Option.some.injEq] at h
    subst h
    exact (List.take_sublist _ _).trans (List.drop_sublist _ _)
  · cases h

theorem forumPaginate_sublist (posts : List Post) (page : Int)
    (l : List Post) (h : (forumPaginate posts page).1 = some l) :
    l.Sublist posts := by
  simp only [forumPaginate] at h
  split at h
  · exact goSlice_sublist _ _ _ _ h
  · split at h
    · exact goSlice_sublist _ _ _ _ h
    · simp only [Option.some.injEq] at h
      subst h
      exact List.nil_sublist _

/-- C9 -- `getForum` runs `sort.SliceStable` on `ctx.Posts` while it is
still empty and assigns the collected posts only afterwards, so
whenever the handler returns a page (the slice expressions do not
panic), the posts handed to the template are exactly the channel list
filtered by parent forum and public-thread type, in channel-list
order, sliced by page — a sublist of the collected order, with no
pinned-first or last-activity reordering applied. -/
theorem getForum_posts_in_collection_order (channels : List Channel)
    (forum : Channel) (o : Option Int) (ctx : ForumCtx)
    (h : getForumHandler channels forum o = some ctx) :
    some ctx.posts =
      (forumPaginate ((channels.filter (fun t =>
        decide (t.parentID = forum.id ∧
          t.typ = ChannelType.guildPublicThread))).map (mkPost forum))
        (normPage o)).1 ∧
    ctx.posts.Sublist
      ((channels.filter (fun t =>
        decide (t.parentID = forum.id ∧
          t.typ = ChannelType.guildPublicThread))).map (mkPost forum)) := by
  have hc := collectPosts_eq channels forum
  simp only [getForumHandler] at h
  cases hr : (forumPaginate (collectPosts channels forum) (normPage o)).1 with
  | none =>
    rw [hr] at h
    cases h
  | some sliced =>
    rw [hr] at h
    simp only [Option.some.injEq] at h
    subst h
    refine ⟨?_, ?_⟩
    · show some sliced = _
      rw [← hc]
      exact hr.symm
    · show sliced.Sublist _
      rw [← hc]
      exact forumPaginate_sublist _ _ _ hr

/-- Witness for C9: the empty channel list with no page parameter
renders the empty post list, the first page of the (empty) collected
order. -/
theorem getForum_posts_in_collection_order_witness :
    some (ForumCtx.mk [] 0 0).posts =
      (forumPaginate ((([] : List Channel).filter (fun t =>
        decide (t.parentID =
            (⟨1, 0, ChannelType.guildForum, 0, 0, [], [], false⟩ :
              Channel).id ∧
          t.typ = ChannelType.guildPublicThread))).map
        (mkPost ⟨1, 0, ChannelType.guildForum, 0, 0, [], [], false⟩))
        (normPage none)).1 ∧
    (ForumCtx.mk [] 0 0).posts.Sublist
      ((([] : List Channel).filter (fun t =>
        decide (t.parentID =
            (⟨1, 0, ChannelType.guildForum, 0, 0, [], [], false⟩ :
              Channel).id ∧
          t.typ = ChannelType.guildPublicThread))).map
        (mkPost ⟨1, 0, ChannelType.guildForum, 0, 0, [], [], false⟩)) :=
  getForum_posts_in_collection_order []
    ⟨1, 0, ChannelType.guildForum, 0, 0, [], [], false⟩ none
    ⟨[], 0, 0⟩ (by decide)

theorem appendToGroups_concat (resolved : Nat → Option String)
    (l : List MessageGroup) (g : MessageGroup) (m : Message) :
    appendToGroups resolved (l ++ [g]) m =
      if g.author.id ≠ m.authorID then
        (l ++ [g]) ++ [⟨author resolved m, [m]⟩]
      else l ++ [⟨g.author, g.messages ++ [m]⟩] := by
  simp only [appendToGroups, List.getLast?_concat, List.dropLast_concat]

theorem appendToGroups_wf (resolved : Nat → Option String)
    (grps : List MessageGroup) (m : Message) (h : GroupsWF grps) :
    GroupsWF (appendToGroups resolved grps m) ∧
    concatGroups (appendToGroups resolved grps m) =
      concatGroups grps ++ [m] := by
  obtain ⟨hgs, hchain⟩ := h
  rcases List.eq_nil_or_concat grps with rfl | ⟨l, g, hl⟩
  · refine ⟨⟨?_, ?_⟩, ?_⟩
    · intro g' hg'
      simp only [appendToGroups, List.getLast?, List.nil_append,
        List.mem_singleton] at hg'
      subst hg'
      refine ⟨by simp, ?_⟩
      intro m' hm'
      simp only [List.mem_singleton] at hm'
      subst hm'
      rfl
    · simp [appendToGroups]
    · simp [concatGroups, appendToGroups]
  · rw [List.concat_eq_append] at hl
    subst hl
    rw [appendToGroups_concat]
    by_cases hne : g.author.id ≠ m.authorID
    · rw [if_pos hne]
      refine ⟨⟨?_, ?_⟩, ?_⟩
      · intro g' hg'
        rcases List.mem_append.mp hg' with hg' | hg'
        · exact hgs g' hg'
        · simp only [List.mem_singleton] at hg'
          subst hg'
          refine ⟨by simp, ?_⟩
          intro m' hm'
          simp only [List.mem_singleton] at hm'
          subst hm'
          rfl
      · rw [List.chain'_append]
        refine ⟨hchain, List.chain'_singleton _, ?_⟩
        intro x hx y hy
        simp only [List.getLast?_concat, Option.mem_def,
          Option.some.injEq] at hx
        simp only [List.head?_cons, Option.mem_def, Option.some.injEq] at hy
        subst hx
        subst hy
        exact hne
      · simp [concatGroups]
    · rw [if_neg hne]
      have heq : g.author.id = m.authorID := not_not.mp hne
      have hchain' := List.chain'_append.mp hchain
      refine ⟨⟨?_, ?_⟩, ?_⟩
      · intro g' hg'
        rcases List.mem_append.mp hg' with hg' | hg'
        · exact hgs g' (List.mem_append.mpr (Or.inl hg'))
        · simp only [List.mem_singleton] at hg'
          subst hg'
          refine ⟨by simp, ?_⟩
          intro m' hm'
          rcases List.mem_append.mp hm' with hm' | hm'
          · exact (hgs g (by simp)).2 m' hm'
          · simp only [List.mem_singleton] at hm'
            subst hm'
            exact heq.symm
      · rw [List.chain'_append]
        refine ⟨hchain'.1, List.chain'_singleton _, ?_⟩
        intro x hx y hy
        simp only [List.head?_cons, Option.mem_def, Option.some.injEq] at hy
        subst hy
        exact hchain'.2.2 x hx g (by simp)
      · simp [concatGroups]

theorem buildGroups_aux (resolved : Nat → Option String)
    (msgs : List Message) :
    ∀ grps, GroupsWF grps →
      GroupsWF (msgs.foldl (appendToGroups resolved) grps) ∧
      concatGroups (msgs.foldl (appendToGroups resolved) grps) =
        concatGroups grps ++ msgs := by
  induction msgs with
  | nil =>
    intro grps h
    exact ⟨h, by simp⟩
  | cons m ms ih =>
    intro grps h
    have hstep := appendToGroups_wf resolved grps m h
    have hrest := ih (appendToGroups resolved grps m) hstep.1
    refine ⟨hrest.1, ?_⟩
    rw [List.foldl_cons, hrest.2, hstep.2]
    simp

/-- C3 -- the `MessageGroups` computed by `getPost` partition the
ordered page into maximal runs of consecutive same-author messages:
concatenating the groups' message lists yields the input list
unchanged, every group is non-empty and each of its messages carries
the group's author id, and adjacent groups have different author
ids. -/
theorem getPost_groups_partition (resolved : Nat → Option String)
    (msgs : List Message) :
    concatGroups (buildGroups resolved msgs) = msgs ∧
    (∀ g ∈ buildGroups resolved msgs, g.messages ≠ [] ∧
      ∀ m ∈ g.messages, m.authorID = g.author.id) ∧
    (buildGroups resolved msgs).Chain'
      (fun a b => a.author.id ≠ b.author.id) := by
  have h := buildGroups_aux resolved msgs []
    ⟨by simp, List.chain'_nil⟩
  exact ⟨by simpa [concatGroups] using h.2, h.1.1, h.1.2⟩

end DFS
